import Mathlib

/-!
Verification of the calendar component's day-timeline layout engine and
local event repository.

Embedding conventions:
* An instant (the code's `new Date(iso).getTime()`) is an integer number of
  milliseconds, modelled as `Int`.
* Pointer coordinates and the pixel/minute arithmetic of the timeline use
  exact rational arithmetic (`ℚ`); the code's floating-point numbers are
  idealised as rationals.
* `localStorage` is modelled as `Option (List Event)`: `none` when the
  `events` key is absent, `some events` for a stored (parsed) list.
  JSON serialisation is treated as the identity and the storage-failure
  (exception) paths are out of scope.
* `crypto.randomUUID()` is modelled by passing the generated id as an
  explicit argument.
-/

namespace Calendar

/-- The `Event` record of `timeHelpers.ts`: `start`/`end` are the UTC
instants denoted by the stored ISO strings, in milliseconds. -/
structure Event where
  id : String
  title : String
  start : Int
  «end» : Int
  color : Option String := none
  notes : Option String := none
deriving DecidableEq, Repr

/-- Duration in milliseconds, `new Date(e.end).getTime() - new Date(e.start).getTime()`. -/
def Event.duration (e : Event) : Int := e.«end» - e.start

/-! ## Interval Stacker (`DayTimeline.tsx`, event-slot `useEffect`, lines 44-89) -/

/-- The ordering implemented by the sort comparator of `DayTimeline.tsx`
(lines 46-54): start ascending, ties broken by duration descending. -/
def eventLE (a b : Event) : Prop :=
  a.start < b.start ∨ (a.start = b.start ∧ b.duration ≤ a.duration)

instance : DecidableRel eventLE := fun a b => by
  unfold eventLE; exact inferInstance

/-- `[...events].sort(comparator)`: JavaScript `Array.prototype.sort` is a
stable sort, modelled as insertion sort over the comparator's total
preorder (every stable sort agrees on a consistent comparator). -/
def sortEvents (events : List Event) : List Event :=
  List.insertionSort eventLE events

/-- One step of the `sortedEvents.forEach` sweep (lines 60-81): the
accumulator is `(stackList, currentStack)`.  A new event is appended to the
current stack when its start is before the end of the *last* event placed
in that stack; otherwise the current stack is closed and a new one opened. -/
def stackStep (acc : List (List Event) × List Event) (event : Event) :
    List (List Event) × List Event :=
  match acc with
  | (stackList, []) => (stackList, [event])
  | (stackList, f :: fs) =>
    let lastEvent := (f :: fs).getLast (List.cons_ne_nil f fs)
    if event.start < lastEvent.«end» then
      (stackList, (f :: fs) ++ [event])
    else
      (stackList ++ [f :: fs], [event])

/-- The whole event-slot computation (lines 44-89): sort, sweep, then emit
the final stack if non-empty. -/
def stackEvents (events : List Event) : List (List Event) :=
  let sorted := sortEvents events
  let result := sorted.foldl stackStep ([], [])
  match result.2 with
  | [] => result.1
  | f :: fs => result.1 ++ [f :: fs]

/-! ## Event repository (`calendarRepo.local.ts`) -/

/-- The `Result<T>` union of `calendarRepo.local.ts`. -/
inductive Result (α : Type) where
  | ok : α → Result α
  | error : String → Result α
deriving DecidableEq, Repr

/-- State of `localStorage` under the `events` key: `none` when
`localStorage.getItem('events')` returns `null`. -/
abbrev Storage := Option (List Event)

/-- `Omit<Event, 'id'>`: the draft passed to `createEvent`. -/
structure EventDraft where
  title : String
  start : Int
  «end» : Int
  color : Option String := none
  notes : Option String := none
deriving DecidableEq, Repr

/-- `getEventsInRange` (lines 12-38): overlap filter
`eventStart < rangeEnd && eventEnd > rangeStart`. -/
def getEventsInRange (rangeStart rangeEnd : Int) (stored : Storage) :
    Result (List Event) :=
  match stored with
  | none => .ok []
  | some events =>
    .ok (events.filter fun event =>
      decide (event.start < rangeEnd) && decide (event.«end» > rangeStart))

/-- `createEvent` (lines 43-66); `freshId` stands for `crypto.randomUUID()`.
Returns the result together with the storage state after the call. -/
def createEvent (freshId : String) (event : EventDraft) (stored : Storage) :
    Result Event × Storage :=
  let events := stored.getD []
  if event.start ≥ event.«end» then
    (.error "End time must be after start time", stored)
  else
    let newEvent : Event :=
      { id := freshId, title := event.title, start := event.start,
        «end» := event.«end», color := event.color, notes := event.notes }
    (.ok newEvent, some (events ++ [newEvent]))

/-- `updateEvent` (lines 71-96): missing store key, then validation, then
`findIndex` lookup, then in-place replacement. -/
def updateEvent (event : Event) (stored : Storage) : Result Event × Storage :=
  match stored with
  | none => (.error "No events found", none)
  | some events =>
    if event.start ≥ event.«end» then
      (.error "End time must be after start time", some events)
    else
      match events.findIdx? (fun e => e.id == event.id) with
      | none => (.error "Event not found", some events)
      | some index => (.ok event, some (events.set index event))

/-- `deleteEvent` (lines 101-116): no-op success when the key is absent,
otherwise keep the events whose id differs. -/
def deleteEvent (id : String) (stored : Storage) : Result Unit × Storage :=
  match stored with
  | none => (.ok (), none)
  | some events => (.ok (), some (events.filter fun event => event.id != id))

/-! ## Drag/Resize Interpreter (`DayTimeline.tsx`, `handleMouseMove`, lines 178-218) -/

/-- The `type` field of the `dragging` state (lines 29-35). -/
inductive DragType where
  | move
  | resizeTop
  | resizeBottom
deriving DecidableEq, Repr

/-- The `dragging` state captured on pointer-down: drag mode and the
subject event's original interval. -/
structure Dragging where
  dragType : DragType
  originalStart : Int
  originalEnd : Int
deriving DecidableEq, Repr

/-- One `handleMouseMove` step (lines 196-217), with the pointer-derived
instant `newDate` abstracted as an argument.  `move` computes the original
duration in fractional minutes (`ms / (1000 * 60)`) and rebuilds the end
edge with date-fns v2 `addMinutes`, whose `toInteger` truncates the amount
toward zero before converting back to milliseconds — modelled by `Int.tdiv`
(truncating division).  The resize branches update one edge only when the
candidate keeps the interval non-degenerate, else leave the ghost
unchanged. -/
def handleMouseMoveStep (dragging : Dragging) (ghost : Event) (newDate : Int) :
    Event :=
  match dragging.dragType with
  | .move =>
    let duration := Int.tdiv (dragging.originalEnd - dragging.originalStart) 60000
    { ghost with start := newDate, «end» := newDate + duration * 60000 }
  | .resizeTop =>
    if newDate < ghost.«end» then { ghost with start := newDate } else ghost
  | .resizeBottom =>
    if newDate > ghost.start then { ghost with «end» := newDate } else ghost

/-- A drag session as a sequence of pointer-move steps applied to a ghost. -/
def applyMoves (ghost : Event) (steps : List (Dragging × Int)) : Event :=
  steps.foldl (fun g s => handleMouseMoveStep s.1 g s.2) ghost

/-! ## Time Coordinate Mapper (`DayTimeline.tsx`, lines 186-190 and 316-320) -/

/-- Pixel-offset-to-minutes mapping of `handleMouseMove` /
`handleEmptySpaceClick`:
`Math.max(0, Math.min((y / 40) * slotMinutes, (endHour - startHour) * 60))`. -/
def minutesFromTop (startHour endHour slotMinutes y : ℚ) : ℚ :=
  max 0 (min ((y / 40) * slotMinutes) ((endHour - startHour) * 60))

/-- Minutes-to-pixel mapping of `renderEvents` (line 319):
`(minutes / slotMinutes) * 40`. -/
def minutesToPixel (slotMinutes minutes : ℚ) : ℚ :=
  (minutes / slotMinutes) * 40

/-! ## Fixture events for the Interval Stacker claims -/

/-- 09:00-10:00, as milliseconds from midnight of the fixture day. -/
def ev0900to1000 : Event :=
  { id := "a", title := "A", start := 32400000, «end» := 36000000 }

/-- 09:30-09:45. -/
def ev0930to0945 : Event :=
  { id := "b", title := "B", start := 34200000, «end» := 35100000 }

/-- 10:30-11:00. -/
def ev1030to1100 : Event :=
  { id := "c", title := "C", start := 37800000, «end» := 39600000 }

/-- 09:00-09:10: shares its start with `tieLong` but is shorter. -/
def tieShort : Event :=
  { id := "s", title := "S", start := 32400000, «end» := 33000000 }

/-- 09:00-09:30: shares its start with `tieShort` but is longer. -/
def tieLong : Event :=
  { id := "l", title := "L", start := 32400000, «end» := 34200000 }

/-! ## Claim theorems -/

/-- Claim C1: on the fixture day 09:00-10:00, 09:30-09:45, 10:30-11:00 the
Interval Stacker produces exactly the two stacks
`[09:00-10:00, 09:30-09:45]` and `[10:30-11:00]`, in that order; and the
sort places the longer of two equal-start events first (duration
descending tie-break). -/
theorem stacker_fixture_two_stacks :
    stackEvents [ev0900to1000, ev0930to0945, ev1030to1100] =
      [[ev0900to1000, ev0930to0945], [ev1030to1100]] ∧
    sortEvents [tieShort, tieLong] = [tieLong, tieShort] := by
  decide

/-- The sweep never loses or invents events: flattening the accumulator
after folding the remaining events recovers exactly the processed input. -/
lemma foldl_stackStep_flatten (l : List Event) :
    ∀ (stackList : List (List Event)) (current : List Event),
      (l.foldl stackStep (stackList, current)).1.flatten
          ++ (l.foldl stackStep (stackList, current)).2
        = stackList.flatten ++ current ++ l := by
  induction l with
  | nil => intro s c; simp
  | cons e l ih =>
    intro s c
    rw [List.foldl_cons]
    cases c with
    | nil =>
      have h := ih s [e]
      simp only [stackStep] at *
      simpa using h
    | cons f fs =>
      by_cases h : e.start < ((f :: fs).getLast (List.cons_ne_nil f fs)).«end»
      · have hih := ih s ((f :: fs) ++ [e])
        simp only [stackStep, h, if_true] at *
        simpa using hih
      · have hih := ih (s ++ [f :: fs]) [e]
        simp only [stackStep, h, if_false] at *
        simpa using hih

/-- Claim C9: the concatenation of the Interval Stacker's stacks is exactly
the sorted input list (start ascending, ties by duration descending), hence
a permutation of the input: no event is dropped or duplicated, and within
each stack events appear in the global sorted order. -/
theorem stacker_flatten_sorted_perm (events : List Event) :
    (stackEvents events).flatten = sortEvents events ∧
    (stackEvents events).flatten.Perm events := by
  have key := foldl_stackStep_flatten (sortEvents events) [] []
  have h1 : (stackEvents events).flatten = sortEvents events := by
    unfold stackEvents
    dsimp only
    rcases hc : (sortEvents events).foldl stackStep ([], []) with ⟨s, c⟩
    rw [hc] at key
    simp only [List.flatten_nil, List.nil_append] at key
    cases c with
    | nil => simpa using key
    | cons f fs => simpa using key
  exact ⟨h1, h1 ▸ List.perm_insertionSort eventLE events⟩

/-- A ghost whose original interval lasts 90 seconds, not a whole number
of minutes. -/
def fractionalGhost : Event := { id := "f", title := "F", start := 0, «end» := 90000 }

/-- Claim C4 counterexample: moving an event whose original duration is
90 seconds yields a ghost of 60 seconds — `addMinutes` truncates the
fractional-minute duration, so duration is not preserved exactly. -/
theorem move_truncates_counterexample :
    (handleMouseMoveStep ⟨.move, 0, 90000⟩ fractionalGhost 0).duration = 60000 ∧
    (handleMouseMoveStep ⟨.move, 0, 90000⟩ fractionalGhost 0).duration ≠ 90000 - 0 := by
  decide

/-- Claim C4 (amended): a move-mode step places the ghost's start at the
pointer-derived instant and gives it the original duration truncated
toward zero to a whole number of minutes; in particular, whenever the
original duration is a whole number of minutes — every whole-minute
event — the duration is preserved exactly, for every pointer delta. -/
theorem move_duration_truncated (originalStart originalEnd : Int)
    (ghost : Event) (newDate : Int) :
    (handleMouseMoveStep ⟨.move, originalStart, originalEnd⟩ ghost newDate).start
        = newDate ∧
    (handleMouseMoveStep ⟨.move, originalStart, originalEnd⟩ ghost newDate).duration
        = Int.tdiv (originalEnd - originalStart) 60000 * 60000 ∧
    (60000 ∣ originalEnd - originalStart →
      (handleMouseMoveStep ⟨.move, originalStart, originalEnd⟩ ghost newDate).duration
        = originalEnd - originalStart) := by
  refine ⟨rfl, ?_, ?_⟩
  · simp [handleMouseMoveStep, Event.duration]
  · rintro ⟨k, hk⟩
    simp only [handleMouseMoveStep, Event.duration, hk]
    rw [Int.mul_tdiv_cancel_left k (by norm_num)]
    ring

theorem move_duration_truncated_witness :
    (60000 : Int) ∣ 1800000 - 0 ∧
    (handleMouseMoveStep ⟨.move, 0, 1800000⟩ fractionalGhost 12345).duration
      = 1800000 - 0 :=
  ⟨by norm_num,
    (move_duration_truncated 0 1800000 fractionalGhost 12345).2.2 (by norm_num)⟩

/-- A resize step (either edge) keeps `start < end` of a non-degenerate
ghost: an accepted candidate replaces one edge strictly inside the other,
and a rejected candidate leaves the ghost unchanged. -/
lemma resize_step_lt (dragging : Dragging) (ghost : Event) (t : Int)
    (hd : dragging.dragType ≠ .move) (hg : ghost.start < ghost.«end») :
    (handleMouseMoveStep dragging ghost t).start
      < (handleMouseMoveStep dragging ghost t).«end» := by
  rcases dragging with ⟨dt, os, oe⟩
  cases dt with
  | move => exact absurd rfl hd
  | resizeTop =>
    by_cases h : t < ghost.«end» <;> simp [handleMouseMoveStep, h]
    exact hg
  | resizeBottom =>
    by_cases h : ghost.start < t <;> simp [handleMouseMoveStep, h]
    exact hg

/-- `start < end` survives any sequence of non-move steps. -/
lemma applyMoves_resize_lt (steps : List (Dragging × Int)) :
    ∀ ghost : Event, ghost.start < ghost.«end» →
      (∀ s ∈ steps, s.1.dragType ≠ .move) →
      (applyMoves ghost steps).start < (applyMoves ghost steps).«end» := by
  induction steps with
  | nil => intro g hg _; simpa [applyMoves] using hg
  | cons s ss ih =>
    intro g hg hall
    simp only [applyMoves, List.foldl_cons] at *
    exact ih _ (resize_step_lt s.1 g s.2 (hall s (List.mem_cons_self s ss)) hg)
      (fun x hx => hall x (List.mem_cons_of_mem s hx))

/-- Claim C3: starting from a ghost with `start < end`, a resize-start step
always yields `start < end` (and a candidate with `start ≥` the current end
is rejected, leaving the ghost unchanged); symmetrically for resize-end;
hence `start < end` is an invariant under arbitrary sequences of resize
moves. -/
theorem resize_invariant (originalStart originalEnd : Int) (ghost : Event)
    (newDate : Int) (steps : List (Dragging × Int))
    (hg : ghost.start < ghost.«end»)
    (hsteps : ∀ s ∈ steps,
      s.1.dragType = .resizeTop ∨ s.1.dragType = .resizeBottom) :
    ((handleMouseMoveStep ⟨.resizeTop, originalStart, originalEnd⟩ ghost newDate).start
        < (handleMouseMoveStep ⟨.resizeTop, originalStart, originalEnd⟩ ghost newDate).«end») ∧
    (ghost.«end» ≤ newDate →
      handleMouseMoveStep ⟨.resizeTop, originalStart, originalEnd⟩ ghost newDate = ghost) ∧
    ((handleMouseMoveStep ⟨.resizeBottom, originalStart, originalEnd⟩ ghost newDate).start
        < (handleMouseMoveStep ⟨.resizeBottom, originalStart, originalEnd⟩ ghost newDate).«end») ∧
    (newDate ≤ ghost.start →
      handleMouseMoveStep ⟨.resizeBottom, originalStart, originalEnd⟩ ghost newDate = ghost) ∧
    (applyMoves ghost steps).start < (applyMoves ghost steps).«end» := by
  refine ⟨resize_step_lt _ _ _ (by simp) hg, ?_,
    resize_step_lt _ _ _ (by simp) hg, ?_,
    applyMoves_resize_lt steps ghost hg ?_⟩
  · intro h
    simp [handleMouseMoveStep, not_lt.mpr h]
  · intro h
    simp [handleMouseMoveStep, not_lt.mpr h]
  · intro s hs
    rcases hsteps s hs with h | h <;> simp [h]

/-- A concrete ghost for the resize-invariant witness. -/
def ghostA : Event := { id := "g", title := "G", start := 0, «end» := 60000 }

/-- A concrete two-step resize session for the witness. -/
def resizeStepsA : List (Dragging × Int) :=
  [(⟨.resizeTop, 0, 60000⟩, 30000), (⟨.resizeBottom, 0, 60000⟩, 45000)]

theorem resize_invariant_witness :
    ghostA.start < ghostA.«end» ∧
    (applyMoves ghostA resizeStepsA).start < (applyMoves ghostA resizeStepsA).«end» :=
  ⟨by decide,
    (resize_invariant 0 60000 ghostA 70000 resizeStepsA (by decide) (by decide)).2.2.2.2⟩

/-- Claim C6: for every pointer y-coordinate, also above or below the grid,
the pixel-to-time conversion is clamped into `[0, (endHour-startHour)*60]`
minutes. -/
theorem pointer_time_clamped (startHour endHour slotMinutes y : ℚ)
    (h : startHour ≤ endHour) :
    0 ≤ minutesFromTop startHour endHour slotMinutes y ∧
    minutesFromTop startHour endHour slotMinutes y ≤ (endHour - startHour) * 60 := by
  constructor
  · exact le_max_left 0 _
  · exact max_le (by nlinarith) (min_le_right _ _)

theorem pointer_time_clamped_witness :
    (5 : ℚ) ≤ 23 ∧
    (0 ≤ minutesFromTop 5 23 15 (-100) ∧
      minutesFromTop 5 23 15 (-100) ≤ (23 - 5) * 60) :=
  ⟨by norm_num, pointer_time_clamped 5 23 15 (-100) (by norm_num)⟩

/-- Claim C5: inside the visible window the pixel-to-minutes mapping
followed by the minutes-to-pixel mapping returns the original offset
(exactly, in particular within slot-size rounding). -/
theorem coordinate_roundtrip (startHour endHour slotMinutes y : ℚ)
    (hslot : 0 < slotMinutes) (hy0 : 0 ≤ y)
    (hy : y ≤ (endHour - startHour) * 60 / slotMinutes * 40) :
    minutesToPixel slotMinutes (minutesFromTop startHour endHour slotMinutes y) = y := by
  have hne : slotMinutes ≠ 0 := ne_of_gt hslot
  have h2 : y * slotMinutes ≤ (endHour - startHour) * 60 * 40 := by
    calc y * slotMinutes
        ≤ (endHour - startHour) * 60 / slotMinutes * 40 * slotMinutes :=
          mul_le_mul_of_nonneg_right hy hslot.le
      _ = (endHour - startHour) * 60 * 40 := by field_simp
  have h1 : y / 40 * slotMinutes ≤ (endHour - startHour) * 60 := by
    rw [show y / 40 * slotMinutes = y * slotMinutes / 40 from by ring,
      div_le_iff₀ (by norm_num : (0 : ℚ) < 40)]
    exact h2
  have h0 : 0 ≤ y / 40 * slotMinutes := by positivity
  unfold minutesFromTop minutesToPixel
  rw [min_eq_left h1, max_eq_right h0]
  field_simp
  ring

theorem coordinate_roundtrip_witness :
    (0 : ℚ) < 15 ∧ (0 : ℚ) ≤ 80 ∧ (80 : ℚ) ≤ (23 - 5) * 60 / 15 * 40 ∧
    minutesToPixel 15 (minutesFromTop 5 23 15 80) = 80 :=
  ⟨by norm_num, by norm_num, by norm_num,
    coordinate_roundtrip 5 23 15 80 (by norm_num) (by norm_num) (by norm_num)⟩

/-- An event whose end precedes its start, for the validation claims. -/
def invalidEvent : Event := { id := "e1", title := "t", start := 5, «end» := 3 }

/-- A draft whose end precedes its start. -/
def invalidDraft : EventDraft := { title := "t", start := 5, «end» := 3 }

/-- Claim C2 counterexample: with the storage key absent, `updateEvent` on
an event with `end <= start` returns the `No events found` error, not the
validation error the claim requires. -/
theorem update_validation_missing_store_counterexample :
    invalidEvent.«end» ≤ invalidEvent.start ∧
    (updateEvent invalidEvent none).1 = .error "No events found" ∧
    (updateEvent invalidEvent none).1 ≠ .error "End time must be after start time" :=
  ⟨by decide, rfl, by decide⟩

/-- Claim C2 (amended): with `end <= start`, `createEvent` always returns
the validation error, and `updateEvent` returns the validation error
whenever the storage key is present (any stored list) but the
`No events found` error when it is absent; in every case the persisted
event list is unchanged. -/
theorem validation_rejected (freshId : String) (draft : EventDraft)
    (event : Event) (stored : Storage) (events : List Event)
    (hd : draft.«end» ≤ draft.start) (he : event.«end» ≤ event.start) :
    createEvent freshId draft stored = (.error "End time must be after start time", stored) ∧
    updateEvent event (some events) = (.error "End time must be after start time", some events) ∧
    updateEvent event none = (.error "No events found", none) := by
  refine ⟨?_, ?_, rfl⟩
  · unfold createEvent
    rw [if_pos hd]
  · simp only [updateEvent, ge_iff_le]
    rw [if_pos he]

theorem validation_rejected_witness :
    invalidDraft.«end» ≤ invalidDraft.start ∧
    invalidEvent.«end» ≤ invalidEvent.start ∧
    (createEvent "id1" invalidDraft none = (.error "End time must be after start time", none) ∧
     updateEvent invalidEvent (some []) = (.error "End time must be after start time", some []) ∧
     updateEvent invalidEvent none = (.error "No events found", none)) :=
  ⟨by decide, by decide,
    validation_rejected "id1" invalidDraft invalidEvent none [] (by decide) (by decide)⟩

/-- A valid-interval event whose id is stored nowhere. -/
def orphanEvent : Event := { id := "z", title := "Z", start := 3, «end» := 5 }

/-- Claim C7 counterexample: with the storage key absent (the freshly
initialised, empty persisted state), `updateEvent` on a valid event returns
the `No events found` error, not the `Event not found` error. -/
theorem update_missing_store_counterexample :
    orphanEvent.start < orphanEvent.«end» ∧
    (updateEvent orphanEvent none).1 = .error "No events found" ∧
    (updateEvent orphanEvent none).1 ≠ .error "Event not found" :=
  ⟨by decide, rfl, by decide⟩

/-- Claim C7 (amended): for a valid-interval event whose id occurs in no
stored event, `updateEvent` on any stored list (including the empty list)
returns the `Event not found` error with the list unchanged; when the
storage key is absent it instead returns the `No events found` error,
also leaving storage unchanged. -/
theorem update_not_found (event : Event) (events : List Event)
    (hv : event.start < event.«end»)
    (habs : ∀ e ∈ events, e.id ≠ event.id) :
    updateEvent event (some events) = (.error "Event not found", some events) ∧
    updateEvent event none = (.error "No events found", none) := by
  refine ⟨?_, rfl⟩
  simp only [updateEvent, ge_iff_le]
  rw [if_neg (not_le.mpr hv)]
  rw [List.findIdx?_eq_none_iff.mpr ?_]
  intro e he
  simpa using habs e he

theorem update_not_found_witness :
    orphanEvent.start < orphanEvent.«end» ∧
    (updateEvent orphanEvent (some [ev0900to1000]) = (.error "Event not found", some [ev0900to1000]) ∧
     updateEvent orphanEvent none = (.error "No events found", none)) :=
  ⟨by decide, update_not_found orphanEvent [ev0900to1000] (by decide) (by decide)⟩

/-- Claim C8: `deleteEvent` succeeds for every id and every storage state;
when no stored event has the id it is a no-op, and in general the new list
is a sublist of the old containing exactly the events whose id differs, so
the others keep their original order. -/
theorem delete_spec (id : String) (events : List Event) (stored : Storage)
    (habs : ∀ e ∈ events, e.id ≠ id) :
    (deleteEvent id stored).1 = .ok () ∧
    deleteEvent id (some events) = (.ok (), some events) ∧
    ∀ l : List Event, ∃ kept : List Event,
      (deleteEvent id (some l)).2 = some kept ∧ List.Sublist kept l ∧
      ∀ e, e ∈ kept ↔ e ∈ l ∧ e.id ≠ id := by
  refine ⟨?_, ?_, ?_⟩
  · cases stored <;> rfl
  · simp only [deleteEvent]
    rw [List.filter_eq_self.mpr]
    intro e he
    simpa using habs e he
  · intro l
    refine ⟨l.filter (fun e => e.id != id), rfl, List.filter_sublist l, ?_⟩
    intro e
    rw [List.mem_filter]
    simp [bne_iff_ne]

theorem delete_spec_witness :
    ev0930to0945.id ≠ "a" ∧
    deleteEvent "a" (some [ev0930to0945]) = (.ok (), some [ev0930to0945]) :=
  ⟨by decide,
    (delete_spec "a" [ev0930to0945] (some [ev0930to0945]) (by decide)).2.1⟩

/-- Claim C10: a successful `createEvent` appends exactly one event at the
end of the previous list, leaving all stored events unchanged and in
order; the new event copies the draft's title, start, end, color and notes
and carries the freshly generated id. -/
theorem create_appends (freshId : String) (draft : EventDraft)
    (stored : Storage) (hv : draft.start < draft.«end») :
    createEvent freshId draft stored =
      (.ok { id := freshId, title := draft.title, start := draft.start,
             «end» := draft.«end», color := draft.color, notes := draft.notes },
       some (stored.getD [] ++
         [{ id := freshId, title := draft.title, start := draft.start,
            «end» := draft.«end», color := draft.color, notes := draft.notes }])) := by
  unfold createEvent
  rw [if_neg (not_le.mpr hv)]

/-- A valid draft for the creation witness. -/
def validDraft : EventDraft := { title := "N", start := 0, «end» := 1800000 }

theorem create_appends_witness :
    validDraft.start < validDraft.«end» ∧
    createEvent "fresh" validDraft (some [ev0900to1000]) =
      (.ok { id := "fresh", title := validDraft.title, start := validDraft.start,
             «end» := validDraft.«end», color := validDraft.color, notes := validDraft.notes },
       some ([ev0900to1000] ++
         [{ id := "fresh", title := validDraft.title, start := validDraft.start,
            «end» := validDraft.«end», color := validDraft.color, notes := validDraft.notes }])) :=
  ⟨by decide, create_appends "fresh" validDraft (some [ev0900to1000]) (by decide)⟩

end Calendar
